import Mathlib

/-!
Verification of the d6tstack demonstration repository's specification.

The repository is a single notebook that drives an external combining/loading
library against SQL databases; the specification reconstructs the core that
library would have to implement (a Schema Reconciler and a Bulk Loader).  The
definitions below embed that core: the Reconciler and Loader are modelled from
the spec's words (the library's code is not part of the repository), while the
notebook's own preprocessing function `apply` is translated from the notebook
source, together with the pandas call semantics it relies on.
-/

namespace D6t

/-- A cell value in a delimited-text file or a database table. `null` is the
explicit null marker used for columns absent from a file. -/
inductive Value where
  | null
  | int (n : Int)
  | str (s : String)
  | date (y m d : Nat)
deriving DecidableEq

/-- A column name, read as a literal string from a header line. -/
abbrev Col := String

/-- Modelled from the spec: the readable contents of one delimited-text file
(the spec's `FileDescriptor` plus its data): the header as the ordered column
names, and the rows, each aligned positionally with the header. -/
structure FileData where
  header : List Col
  rows : List (List Value)
deriving DecidableEq

/-- Modelled from the spec: an input file as the reconciler sees it — its path
and its contents, `none` when the file cannot be opened or parsed. -/
structure SourceFile where
  path : String
  content : Option FileData
deriving DecidableEq

/-- Modelled from the spec: the error raised when no files are given. -/
inductive ReconcileError where
  | EmptyInputError
deriving DecidableEq

/-- Modelled from the spec: the per-file error for a file that cannot be opened
or parsed; collected and reported, never fatal to the run. -/
structure UnreadableFileError where
  path : String
deriving DecidableEq

/-- The successfully-read files, in input order, with their paths. -/
def readableFiles (files : List SourceFile) : List (String × FileData) :=
  files.filterMap (fun f => f.content.map (fun d => (f.path, d)))

/-- The headers of the successfully-read files, in input order. -/
def readHeaders (files : List SourceFile) : List (List Col) :=
  files.filterMap (fun f => f.content.map (fun d => d.header))

/-- One `UnreadableFileError` per file that cannot be read, in input order. -/
def unreadable (files : List SourceFile) : List UnreadableFileError :=
  (files.filter (fun f => f.content.isNone)).map (fun f => { path := f.path })

/-- Append a column to the running union unless it is already present. -/
def insertUnion (acc : List Col) (c : Col) : List Col :=
  if c ∈ acc then acc else acc ++ [c]

/-- Ordered union of a sequence of headers, first-seen order. -/
def unionCols (headers : List (List Col)) : List Col :=
  headers.foldl (fun acc h => h.foldl insertUnion acc) []

/-- Modelled from the spec: `compute_union` — the ordered union of columns
across all successfully-read files, preserving first-seen order. -/
def compute_union (files : List SourceFile) : List Col :=
  unionCols (readHeaders files)

/-- Modelled from the spec: the presence matrix (file × column → boolean)
exposed for inspection before any load occurs. -/
def is_column_present (files : List SourceFile) : List (String × List Bool) :=
  (readableFiles files).map
    (fun pd => (pd.1, (compute_union files).map (fun c => decide (c ∈ pd.2.header))))

/-- Modelled from the spec: `discover_columns` — returns the per-file column
sequence of each readable file together with one `UnreadableFileError` per
unreadable file (reported, not fatal); fails with `EmptyInputError` when the
input sequence is empty. -/
def discover_columns (files : List SourceFile) :
    Except ReconcileError (List (String × List Col) × List UnreadableFileError) :=
  if files.isEmpty then Except.error ReconcileError.EmptyInputError
  else Except.ok ((readableFiles files).map (fun pd => (pd.1, pd.2.header)), unreadable files)

/-- Reference form of first-seen deduplication: keep each column's first
occurrence and delete all its later duplicates. -/
def firstSeen : List Col → List Col
  | [] => []
  | c :: cs => c :: firstSeen (cs.filter (fun x => decide (x ≠ c)))
termination_by l => l.length
decreasing_by
  simp only [List.length_cons]
  exact Nat.lt_succ_of_le (List.length_filter_le _ _)

/-- Worker for `chunksOf`: structural recursion on a fuel bound so that chunk
splitting evaluates on concrete inputs. -/
def chunksOfGo {α : Type} (n : Nat) : Nat → List α → List (List α)
  | 0, _ => []
  | _, [] => []
  | fuel + 1, a :: rest => (a :: rest.take (n - 1)) :: chunksOfGo n fuel (rest.drop (n - 1))

/-- Split a list of rows into successive chunks of at most `n` rows; each chunk
takes at least one row, so the split always terminates. -/
def chunksOf {α : Type} (n : Nat) (l : List α) : List (List α) :=
  chunksOfGo n l.length l

/-- Modelled from the spec: `UnifiedBatch` — an ordered sequence of rows over
the run's global column union; a row is aligned positionally with `cols`, and a
column absent from the source file holds the null marker. -/
structure UnifiedBatch where
  cols : List Col
  rows : List (List Value)
deriving DecidableEq

/-- The value a row (aligned with the header `hdr`) gives to column `c`; the
null marker when `c` is not one of the row's columns. -/
def rowValue (hdr : List Col) (row : List Value) (c : Col) : Value :=
  (List.lookup c (hdr.zip row)).getD Value.null

/-- Reindex one file row to the global union: for each union column take the
file's value, and the null marker for columns absent from the file. -/
def reindexRow (u hdr : List Col) (row : List Value) : List Value :=
  u.map (fun c => rowValue hdr row c)

/-- The batches produced from one readable file: the file's rows are read in
chunks of at most `n` rows, each chunk reindexed to the global union `u`; the
originating file path is appended as an extra column when `addFilename` is
set. -/
def fileBatches (u : List Col) (n : Nat) (addFilename : Bool) (path : String)
    (fd : FileData) : List UnifiedBatch :=
  (chunksOf n fd.rows).map (fun chunk =>
    { cols := if addFilename then u ++ ["filename"] else u,
      rows := chunk.map (fun row =>
        if addFilename then reindexRow u fd.header row ++ [Value.str path]
        else reindexRow u fd.header row) })

/-- Modelled from the spec: `combine` — fails with `EmptyInputError` on an
empty file sequence; otherwise reads every readable file (unreadable files are
skipped) in bounded chunks, reindexes each chunk to the global column union
with absent columns filled with the null marker, applies the user transform
when supplied, and yields the successive `UnifiedBatch`es in input-file
order. -/
def combine (n : Nat) (transform : Option (UnifiedBatch → UnifiedBatch))
    (addFilename : Bool) (files : List SourceFile) :
    Except ReconcileError (List UnifiedBatch) :=
  if files.isEmpty then Except.error ReconcileError.EmptyInputError
  else Except.ok ((readableFiles files).flatMap (fun pd =>
    (fileBatches (compute_union files) n addFilename pd.1 pd.2).map
      (fun b => match transform with
        | none => b
        | some t => t b)))

/-- Modelled from the spec: the `LoadTarget` conflict policy. -/
inductive IfExists where
  | replace
  | append
  | fail
deriving DecidableEq

/-- A database table: its column names and its rows. -/
structure Table where
  cols : List Col
  rows : List (List Value)
deriving DecidableEq

/-- Modelled from the spec: loader errors — `SchemaConflictError` when the
existing table's schema is incompatible in `append` mode, and a table-exists
failure for the `fail` policy. -/
inductive LoadError where
  | SchemaConflictError
  | TableExistsError
deriving DecidableEq

/-- Schema compatibility for `append`: the existing table's columns are a
superset of (or equal to) the batch columns. -/
def compatible (tcols bcols : List Col) : Bool :=
  bcols.all (fun c => decide (c ∈ tcols))

/-- The schema of a batch sequence: the first batch's columns. -/
def batchCols (batches : List UnifiedBatch) : List Col :=
  ((batches.head?).map (fun b => b.cols)).getD []

/-- Modelled from the spec: `load` — for `replace`, drops and recreates the
target table from the first batch's schema; for `append`, validates that the
existing schema is compatible before writing; for `fail`, errors when the
table exists.  On success the table holds the concatenation of all batches in
input order. -/
def load (mode : IfExists) (existing : Option Table) (batches : List UnifiedBatch) :
    Except LoadError Table :=
  match mode, existing with
  | IfExists.replace, _ =>
      Except.ok { cols := batchCols batches, rows := (batches.map (fun b => b.rows)).flatten }
  | IfExists.append, some t =>
      if compatible t.cols (batchCols batches)
      then Except.ok { cols := t.cols, rows := t.rows ++ (batches.map (fun b => b.rows)).flatten }
      else Except.error LoadError.SchemaConflictError
  | IfExists.append, none =>
      Except.ok { cols := batchCols batches, rows := (batches.map (fun b => b.rows)).flatten }
  | IfExists.fail, some _ => Except.error LoadError.TableExistsError
  | IfExists.fail, none =>
      Except.ok { cols := batchCols batches, rows := (batches.map (fun b => b.rows)).flatten }

/-- Modelled from the spec: the notebook's `d6tstack.utils.pd_to_psql` — bulk
load one dataframe into a postgres table through the native copy channel. -/
def pd_to_psql (df : UnifiedBatch) (existing : Option Table) (mode : IfExists) :
    Except LoadError Table :=
  load mode existing [df]

/-- Modelled from the spec: `d6tstack.utils.pd_to_mysql` — the same contract
against mysql (the intermediate CSV the library writes is internal to it). -/
def pd_to_mysql (df : UnifiedBatch) (existing : Option Table) (mode : IfExists) :
    Except LoadError Table :=
  load mode existing [df]

/-! ### The notebook's preprocessing function, from the source

The notebook defines

```
def apply(dfg):
    dfg['date'] = pd.to_datetime(dfg['date'], format='%Y-%m-%d')
    dfg['date_year_quarter'] = (dfg['date'].dt.year).astype(str).str[-2:]+'Q'+(dfg['date'].dt.quarter).astype(str)
    dfg['date_monthend'] = dfg['date'] + pd.tseries.offsets.MonthEnd()
    return dfg
```

and passes it as `apply_after_read`.  The pandas pieces it uses (date parsing,
year/quarter formatting, the MonthEnd offset, column assignment) are embedded
below, together with the Python call semantics: `dfg[c] = ...` mutates the
dataframe object the reference points to, and `return dfg` returns the very
reference the function received. -/

/-- Whether the year is a leap year (Gregorian rule), as pandas dates use. -/
def isLeap (y : Nat) : Bool :=
  (y % 4 == 0 && y % 100 != 0) || y % 400 == 0

/-- The number of days in month `m` of year `y`. -/
def daysInMonth (y m : Nat) : Nat :=
  if m == 2 then (if isLeap y then 29 else 28)
  else if m == 4 || m == 6 || m == 9 || m == 11 then 30
  else 31

/-- The numeric value of a decimal digit character. -/
def digitVal (c : Char) : Option Nat :=
  if 48 ≤ c.toNat && c.toNat ≤ 57 then some (c.toNat - 48) else none

/-- Parse a nonempty all-digit character sequence as a natural number. -/
def parseNat (cs : List Char) : Option Nat :=
  if cs.isEmpty then none
  else cs.foldl (fun acc c =>
    match acc, digitVal c with
    | some n, some d => some (n * 10 + d)
    | _, _ => none) (some 0)

/-- Split a character sequence on the dash separator of `%Y-%m-%d`. -/
def splitOnDash : List Char → List (List Char)
  | [] => [[]]
  | c :: cs =>
    if c = '-' then [] :: splitOnDash cs
    else match splitOnDash cs with
      | [] => [[c]]
      | g :: gs => (c :: g) :: gs

/-- Parse a date string in the notebook's `%Y-%m-%d` format. -/
def parseDate (s : String) : Option (Nat × Nat × Nat) :=
  match splitOnDash s.data with
  | [ys, ms, ds] =>
    match parseNat ys, parseNat ms, parseNat ds with
    | some y, some m, some d => some (y, m, d)
    | _, _, _ => none
  | _ => none

/-- `pd.to_datetime(..., format='%Y-%m-%d')` on one cell. -/
def to_datetime (v : Value) : Value :=
  match v with
  | Value.str s =>
    match parseDate s with
    | some (y, m, d) => Value.date y m d
    | none => Value.null
  | v => v

/-- Worker for `natChars`: structural recursion on a fuel bound so that the
decimal rendering evaluates on concrete inputs. -/
def natCharsGo : Nat → Nat → List Char
  | 0, _ => []
  | fuel + 1, n =>
    if n < 10 then [Char.ofNat (48 + n % 10)]
    else natCharsGo fuel (n / 10) ++ [Char.ofNat (48 + n % 10)]

/-- The decimal digit characters of a natural number, most significant first
(`astype(str)` of a year or quarter number). -/
def natChars (n : Nat) : List Char :=
  natCharsGo (n + 1) n

/-- `.astype(str).str[-2:]`: the last two characters of a decimal rendering. -/
def lastTwo (cs : List Char) : List Char :=
  cs.drop (cs.length - 2)

/-- The calendar quarter of month `m` (`dt.quarter`). -/
def quarterOf (m : Nat) : Nat :=
  (m - 1) / 3 + 1

/-- One cell of the notebook's `date_year_quarter` column:
`year.astype(str).str[-2:] + 'Q' + quarter.astype(str)`. -/
def yearQuarter (v : Value) : Value :=
  match v with
  | Value.date y m _ =>
      Value.str (String.mk (lastTwo (natChars y) ++ ['Q'] ++ natChars (quarterOf m)))
  | _ => Value.null

/-- One cell of `date + pd.tseries.offsets.MonthEnd()`: roll forward to the end
of the month, and to the end of the next month when already on a month end. -/
def monthEnd (v : Value) : Value :=
  match v with
  | Value.date y m d =>
    if d = daysInMonth y m then
      if m = 12 then Value.date (y + 1) 1 31
      else Value.date y (m + 1) (daysInMonth y (m + 1))
    else Value.date y m (daysInMonth y m)
  | _ => Value.null

/-- A pandas dataframe as a column store: ordered (name, column values) pairs. -/
abbrev DataFrame := List (Col × List Value)

/-- `dfg[c]`: the values of a column (empty when the column is missing). -/
def getCol (df : DataFrame) (c : Col) : List Value :=
  ((df.find? (fun p => p.1 == c)).map (fun p => p.2)).getD []

/-- `dfg[c] = vs`: overwrite an existing column, or append a new one at the
end (the pandas column-assignment behaviour). -/
def setCol (df : DataFrame) (c : Col) (vs : List Value) : DataFrame :=
  if df.any (fun p => p.1 == c) then df.map (fun p => if p.1 == c then (c, vs) else p)
  else df ++ [(c, vs)]

/-- The value-level content of the notebook's `apply(dfg)`: convert `date` to
datetimes, then add the `date_year_quarter` and `date_monthend` columns derived
from the converted dates. -/
def applyContent (dfg : DataFrame) : DataFrame :=
  let dfg1 := setCol dfg "date" ((getCol dfg "date").map to_datetime)
  let dfg2 := setCol dfg1 "date_year_quarter" ((getCol dfg1 "date").map yearQuarter)
  let dfg3 := setCol dfg2 "date_monthend" ((getCol dfg2 "date").map monthEnd)
  dfg3

/-- The Python heap of dataframe objects; a reference is an index into it. -/
abbrev Heap := List DataFrame

/-- The notebook's `apply` with Python call semantics: the function receives a
reference `r` into the heap, the in-place column assignments `dfg[c] = ...`
mutate the referenced object, and `return dfg` returns the same reference.
The call maps the heap and the argument reference to the post-call heap and
the returned reference. -/
def applyCall (h : Heap) (r : Nat) : Heap × Nat :=
  (h.set r (applyContent (h.getD r [])), r)

/-! ### Concrete inputs: the spec's three-file scenario -/

/-- January file of the spec's scenario: columns date, sales, cost, profit. -/
def demoJan : SourceFile :=
  { path := "jan.csv",
    content := some
      { header := ["date", "sales", "cost", "profit"],
        rows := [[Value.str "2011-01-01", Value.int 100, Value.int (-80), Value.int 20],
                 [Value.str "2011-01-02", Value.int 100, Value.int (-80), Value.int 20]] } }

/-- February file of the spec's scenario: same four columns. -/
def demoFeb : SourceFile :=
  { path := "feb.csv",
    content := some
      { header := ["date", "sales", "cost", "profit"],
        rows := [[Value.str "2011-02-01", Value.int 200, Value.int (-90), Value.int 110]] } }

/-- March file of the spec's scenario: adds the extra column profit2. -/
def demoMar : SourceFile :=
  { path := "mar.csv",
    content := some
      { header := ["date", "sales", "cost", "profit", "profit2"],
        rows := [[Value.str "2011-03-01", Value.int 300, Value.int (-100), Value.int 200,
                  Value.int 400]] } }

/-- The spec scenario's three files. -/
def demoFiles : List SourceFile :=
  [demoJan, demoFeb, demoMar]

/-- A file that cannot be opened or parsed. -/
def demoBad : SourceFile :=
  { path := "bad.csv", content := none }

/-- Three files of which the second is unreadable. -/
def demoFilesBad : List SourceFile :=
  [demoJan, demoBad, demoMar]

/-- The batches `combine` produces on the scenario files with chunk bound 10. -/
def demoBatches : List UnifiedBatch :=
  match combine 10 none false demoFiles with
  | Except.ok bs => bs
  | Except.error _ => []

/-- The batches `combine` produces on the scenario files with chunk bound 2. -/
def demoBatches2 : List UnifiedBatch :=
  match combine 2 none false demoFiles with
  | Except.ok bs => bs
  | Except.error _ => []

/-- The dataframe contents of the February file, as the notebook's `apply`
receives them after a chunked read. -/
def demoDf : DataFrame :=
  [("date", [Value.str "2011-02-01"]), ("sales", [Value.int 200])]

/-- Total number of rows left in a queue of (path, remaining file data). -/
def totalRows (q : List (String × FileData)) : Nat :=
  (q.map (fun pd => pd.2.rows.length)).sum

/-- One step of the cooperative producer/consumer stream behind `combine`: the
queue holds, for each file still to be processed, its not-yet-read remainder
(the data still on disk).  A step materializes exactly one chunk of the head
file — never more — reindexes it to the union `u`, and leaves the rest of that
file unread in the queue; exhausted files are passed over. -/
def streamNext (u : List Col) (n : Nat) :
    List (String × FileData) → Option (UnifiedBatch × List (String × FileData))
  | [] => none
  | (p, fd) :: rest =>
    match fd.rows with
    | [] => streamNext u n rest
    | r :: rs =>
      some ({ cols := u, rows := (r :: rs.take (n - 1)).map (reindexRow u fd.header) },
            (p, { header := fd.header, rows := rs.drop (n - 1) }) :: rest)

/-- Drive the stream to completion, collecting the batches it emits; `fuel`
bounds the number of steps (every step consumes at least one row, so the total
row count suffices). -/
def streamRun (u : List Col) (n : Nat) : Nat → List (String × FileData) → List UnifiedBatch
  | 0, _ => []
  | fuel + 1, q =>
    match streamNext u n q with
    | none => []
    | some (b, q2) => b :: streamRun u n fuel q2

/-! ### Lemmas about the first-seen union -/

/-- Membership in the first-seen deduplication is membership in the input. -/
theorem mem_firstSeen (c : Col) : ∀ l : List Col, c ∈ firstSeen l ↔ c ∈ l := by
  intro l
  induction l using firstSeen.induct with
  | case1 => simp [firstSeen]
  | case2 x cs ih =>
    rw [firstSeen]
    by_cases hx : c = x
    · subst hx; simp
    · simp only [List.mem_cons, ih, List.mem_filter, decide_eq_true_eq]
      tauto

/-- The first-seen deduplication has no duplicates. -/
theorem nodup_firstSeen : ∀ l : List Col, (firstSeen l).Nodup := by
  intro l
  induction l using firstSeen.induct with
  | case1 => simp [firstSeen]
  | case2 x cs ih =>
    rw [firstSeen]
    refine List.Nodup.cons ?_ ih
    intro hmem
    have := (mem_firstSeen x _).mp hmem
    simp at this

/-- Folding `insertUnion` from an accumulator appends exactly the first
occurrences of the not-yet-seen columns, in order. -/
theorem foldl_insertUnion (l : List Col) : ∀ acc : List Col,
    List.foldl insertUnion acc l = acc ++ firstSeen (l.filter (fun c => decide (c ∉ acc))) := by
  induction l with
  | nil => intro acc; simp [firstSeen]
  | cons c cs ih =>
    intro acc
    simp only [List.foldl_cons]
    by_cases hc : c ∈ acc
    · have hins : insertUnion acc c = acc := if_pos hc
      rw [hins, ih]
      have hfilter : (c :: cs).filter (fun x => decide (x ∉ acc)) =
          cs.filter (fun x => decide (x ∉ acc)) := by
        simp [List.filter_cons, hc]
      rw [hfilter]
    · have hins : insertUnion acc c = acc ++ [c] := if_neg hc
      have hfilter : (c :: cs).filter (fun x => decide (x ∉ acc)) =
          c :: cs.filter (fun x => decide (x ∉ acc)) := by
        simp [List.filter_cons, hc]
      rw [hins, ih, hfilter, firstSeen, List.append_assoc, List.singleton_append]
      have hff : (cs.filter (fun x => decide (x ∉ acc))).filter (fun x => decide (x ≠ c)) =
          cs.filter (fun x => decide (x ∉ acc ++ [c])) := by
        rw [List.filter_filter]
        apply List.filter_congr
        intro x _
        simp only [List.mem_append, List.mem_singleton, decide_eq_decide, Bool.and_eq_true,
          decide_eq_true_eq, ← Bool.decide_and]
        tauto
      rw [hff]

/-- `compute_union` equals first-seen deduplication of all readable headers
joined in input order. -/
theorem compute_union_eq_firstSeen (files : List SourceFile) :
    compute_union files = firstSeen (readHeaders files).flatten := by
  have h1 : compute_union files = List.foldl insertUnion [] (readHeaders files).flatten := by
    rw [compute_union, unionCols, List.foldl_flatten]
  rw [h1, foldl_insertUnion]
  have h2 : (readHeaders files).flatten.filter (fun c => decide (c ∉ ([] : List Col))) =
      (readHeaders files).flatten := by
    apply List.filter_eq_self.mpr
    intro a _
    simp
  rw [h2, List.nil_append]

/-- C1: for every set of input files with differing column sets, the union
computed by `compute_union` contains every column of every successfully-read
file exactly once (so it is a superset of each file's columns, never an
intersection), has no duplicates, and equals the first-seen-order
deduplication of the headers joined in file order. -/
theorem compute_union_first_seen_additive (files : List SourceFile) (hdr : List Col) (c : Col)
    (h1 : hdr ∈ readHeaders files) (h2 : c ∈ hdr) :
    (compute_union files).count c = 1 ∧
    compute_union files = firstSeen (readHeaders files).flatten ∧
    (compute_union files).Nodup := by
  have hfs := compute_union_eq_firstSeen files
  have hnd : (compute_union files).Nodup := by rw [hfs]; exact nodup_firstSeen _
  have hmem : c ∈ compute_union files := by
    rw [hfs, mem_firstSeen, List.mem_flatten]
    exact ⟨hdr, h1, h2⟩
  exact ⟨List.count_eq_one_of_mem hnd hmem, hfs, hnd⟩

/-- Witness for C1 at the spec's scenario files: the extra column profit2 of
the third file appears in the union exactly once. -/
theorem compute_union_first_seen_additive_witness :
    (compute_union demoFiles).count "profit2" = 1 ∧
    compute_union demoFiles = firstSeen (readHeaders demoFiles).flatten ∧
    (compute_union demoFiles).Nodup :=
  compute_union_first_seen_additive demoFiles
    ["date", "sales", "cost", "profit", "profit2"] "profit2" (by decide) (by decide)

/-! ### Lemmas about reindexed rows and `combine` -/

/-- A column not among the row's header columns looks up to nothing. -/
theorem lookup_zip_not_mem (c : Col) : ∀ (hdr : List Col) (row : List Value),
    c ∉ hdr → List.lookup c (hdr.zip row) = none := by
  intro hdr
  induction hdr with
  | nil => intro row _; simp
  | cons x xs ih =>
    intro row hc
    cases row with
    | nil => simp
    | cons v vs =>
      have hne : (c == x) = false := by
        simp only [beq_eq_false_iff_ne, ne_eq]
        intro he
        exact hc (he ▸ List.mem_cons_self x xs)
      simp only [List.zip_cons_cons, List.lookup, hne]
      exact ih vs (fun hm => hc (List.mem_cons_of_mem x hm))

/-- `rowValue` of a column absent from the row's header is the null marker. -/
theorem rowValue_not_mem (hdr : List Col) (row : List Value) (c : Col) (h : c ∉ hdr) :
    rowValue hdr row c = Value.null := by
  rw [rowValue, lookup_zip_not_mem c hdr row h]
  rfl

/-- Looking a column up against a row built by mapping a function over the same
column list yields the function's value exactly on that list's columns. -/
theorem lookup_zip_map_self (fn : Col → Value) (c : Col) : ∀ u : List Col,
    List.lookup c (u.zip (u.map fn)) = if c ∈ u then some (fn c) else none := by
  intro u
  induction u with
  | nil => simp
  | cons x xs ih =>
    by_cases hx : c = x
    · subst hx
      simp [List.lookup]
    · have hne : (c == x) = false := by simp [hx]
      simp only [List.map_cons, List.zip_cons_cons, List.lookup, hne]
      rw [show List.zipWith Prod.mk xs (xs.map fn) = xs.zip (xs.map fn) from rfl, ih]
      simp [List.mem_cons, hx]

/-- Reading a reindexed row: union columns give the file's value, all other
columns the null marker. -/
theorem rowValue_reindex (u hdr : List Col) (row : List Value) (c : Col) :
    rowValue u (reindexRow u hdr row) c =
      if c ∈ u then rowValue hdr row c else Value.null := by
  rw [rowValue, reindexRow, lookup_zip_map_self]
  by_cases hc : c ∈ u <;> simp [hc]

/-- A column absent from the source file's header reads as the null marker in a
reindexed row, whether or not the union contains it. -/
theorem rowValue_reindex_null (u hdr : List Col) (row : List Value) (c : Col)
    (h : c ∉ hdr) : rowValue u (reindexRow u hdr row) c = Value.null := by
  rw [rowValue_reindex]
  by_cases hc : c ∈ u
  · rw [if_pos hc, rowValue_not_mem hdr row c h]
  · rw [if_neg hc]

/-- Every element of every chunk the worker emits is an element of the list
being chunked. -/
theorem chunksOfGo_subset {α : Type} (n : Nat) : ∀ (fuel : Nat) (l ch : List α),
    ch ∈ chunksOfGo n fuel l → ∀ x ∈ ch, x ∈ l := by
  intro fuel
  induction fuel with
  | zero => intro l ch h; simp [chunksOfGo] at h
  | succ fuel ih =>
    intro l ch h x hx
    cases l with
    | nil => simp [chunksOfGo] at h
    | cons a rest =>
      rw [chunksOfGo] at h
      rcases List.mem_cons.mp h with h1 | h1
      · subst h1
        rcases List.mem_cons.mp hx with h2 | h2
        · exact h2 ▸ List.mem_cons_self a rest
        · exact List.mem_cons_of_mem a (List.take_subset _ _ h2)
      · exact List.mem_cons_of_mem a (List.drop_subset _ _ (ih _ _ h1 x hx))

/-- Every element of every chunk of `chunksOf n l` is an element of `l`. -/
theorem chunksOf_subset {α : Type} (n : Nat) (l ch : List α)
    (h : ch ∈ chunksOf n l) : ∀ x ∈ ch, x ∈ l :=
  chunksOfGo_subset n l.length l ch h

/-- On a nonempty file sequence with no transform, `combine` succeeds and
yields the reindexed chunk batches of the readable files in input order. -/
theorem combine_eq_ok (n : Nat) (addFilename : Bool) (files : List SourceFile)
    (h : files ≠ []) :
    combine n none addFilename files =
      Except.ok ((readableFiles files).flatMap
        (fun pd => fileBatches (compute_union files) n addFilename pd.1 pd.2)) := by
  rw [combine, if_neg (by simpa using h)]
  simp

/-- C2: every batch `combine` yields has exactly the global union as its column
list (hence an identical column set and ordering across the whole run), every
row has one value per union column, and the batch is one of the batches of one
readable source file `pd` — every one of its rows is the reindexing of an
actual row of that file, and every column absent from that file's header reads
as the null marker in every row. -/
theorem combine_rows_unified (files : List SourceFile) (n : Nat)
    (bs : List UnifiedBatch) (b : UnifiedBatch)
    (h1 : combine n none false files = Except.ok bs) (h2 : b ∈ bs) :
    b.cols = compute_union files ∧
    (∀ row ∈ b.rows, row.length = (compute_union files).length) ∧
    ∃ pd, pd ∈ readableFiles files ∧
      b ∈ fileBatches (compute_union files) n false pd.1 pd.2 ∧
      (∀ row ∈ b.rows, ∃ r0 ∈ pd.2.rows,
        row = reindexRow (compute_union files) pd.2.header r0) ∧
      ∀ row ∈ b.rows, ∀ c : Col, c ∉ pd.2.header → rowValue b.cols row c = Value.null := by
  have hne : files ≠ [] := by
    intro he
    subst he
    rw [combine] at h1
    simp at h1
  rw [combine_eq_ok n false files hne] at h1
  have hbs := Except.ok.inj h1
  subst hbs
  rcases List.mem_flatMap.mp h2 with ⟨pd, hpd, hb⟩
  have hbmem := hb
  rw [fileBatches] at hb
  rcases List.mem_map.mp hb with ⟨chunk, hchunk, hbeq⟩
  subst hbeq
  simp only [Bool.false_eq_true, if_false]
  refine ⟨trivial, ?_, pd, hpd, hbmem, ?_, ?_⟩
  · intro row hrow
    rcases List.mem_map.mp hrow with ⟨r0, _, hr0⟩
    subst hr0
    simp [reindexRow]
  · intro row hrow
    rcases List.mem_map.mp hrow with ⟨r0, hr0mem, hr0⟩
    subst hr0
    exact ⟨r0, chunksOf_subset n pd.2.rows chunk hchunk r0 hr0mem, rfl⟩
  · intro row hrow c hc
    rcases List.mem_map.mp hrow with ⟨r0, _, hr0⟩
    subst hr0
    exact rowValue_reindex_null _ _ _ _ hc

/-- Witness for C2 at the spec's scenario files: the first batch of the run. -/
theorem combine_rows_unified_witness :
    (demoBatches.getD 0 ⟨[], []⟩).cols = compute_union demoFiles ∧
    (∀ row ∈ (demoBatches.getD 0 ⟨[], []⟩).rows,
      row.length = (compute_union demoFiles).length) ∧
    ∃ pd, pd ∈ readableFiles demoFiles ∧
      (demoBatches.getD 0 ⟨[], []⟩) ∈
        fileBatches (compute_union demoFiles) 10 false pd.1 pd.2 ∧
      (∀ row ∈ (demoBatches.getD 0 ⟨[], []⟩).rows, ∃ r0 ∈ pd.2.rows,
        row = reindexRow (compute_union demoFiles) pd.2.header r0) ∧
      ∀ row ∈ (demoBatches.getD 0 ⟨[], []⟩).rows, ∀ c : Col, c ∉ pd.2.header →
        rowValue (demoBatches.getD 0 ⟨[], []⟩).cols row c = Value.null :=
  combine_rows_unified demoFiles 10 demoBatches (demoBatches.getD 0 ⟨[], []⟩)
    rfl (by decide)

/-! ### The loader and the chunk bound -/

/-- C3: loading a `UnifiedBatch` sequence with `if_exists = replace` always
succeeds, dropping any existing table and recreating it from the first batch's
schema, and the resulting table's rows are exactly the concatenation of all
batches in input order — in particular the row count is the total row count of
the batches. -/
theorem load_replace_concat (existing : Option Table) (batches : List UnifiedBatch) :
    load IfExists.replace existing batches =
      Except.ok { cols := batchCols batches, rows := (batches.map (fun b => b.rows)).flatten } ∧
    ((batches.map (fun b => b.rows)).flatten).length =
      (batches.map (fun b => b.rows.length)).sum := by
  refine ⟨rfl, ?_⟩
  rw [List.length_flatten, List.map_map]
  rfl

/-- The chunk worker does not depend on the exact fuel, as long as the fuel
covers the list length. -/
theorem chunksOfGo_congr {α : Type} (n : Nat) : ∀ (f1 f2 : Nat) (l : List α),
    l.length ≤ f1 → l.length ≤ f2 → chunksOfGo n f1 l = chunksOfGo n f2 l := by
  intro f1
  induction f1 with
  | zero =>
    intro f2 l h1 _
    have hl : l = [] := List.length_eq_zero.mp (Nat.le_zero.mp h1)
    subst hl
    cases f2 <;> rfl
  | succ f1 ih =>
    intro f2 l h1 h2
    cases l with
    | nil => cases f2 <;> rfl
    | cons a rest =>
      cases f2 with
      | zero => simp at h2
      | succ f2 =>
        rw [chunksOfGo, chunksOfGo]
        congr 1
        simp only [List.length_cons] at h1 h2
        apply ih
        · rw [List.length_drop]; omega
        · rw [List.length_drop]; omega

/-- Chunking a nonempty list takes one chunk off the front. -/
theorem chunksOf_cons {α : Type} (n : Nat) (r : α) (rs : List α) :
    chunksOf n (r :: rs) = (r :: rs.take (n - 1)) :: chunksOf n (rs.drop (n - 1)) := by
  rw [chunksOf, chunksOf, show (r :: rs).length = rs.length + 1 from rfl, chunksOfGo]
  congr 1
  apply chunksOfGo_congr
  · rw [List.length_drop]; omega
  · exact Nat.le_refl _

/-- `fileBatches` without the filename column is chunking plus reindexing. -/
theorem fileBatches_false (u : List Col) (n : Nat) (p : String) (fd : FileData) :
    fileBatches u n false p fd =
      (chunksOf n fd.rows).map
        (fun chunk => { cols := u, rows := chunk.map (reindexRow u fd.header) }) := by
  rw [fileBatches]
  simp

/-- A queue with no rows left yields no batches. -/
theorem flatMap_fileBatches_zero (u : List Col) (n : Nat) :
    ∀ q : List (String × FileData), totalRows q = 0 →
    q.flatMap (fun pd => fileBatches u n false pd.1 pd.2) = [] := by
  intro q
  induction q with
  | nil => intro _; rfl
  | cons pf rest ih =>
    intro hq
    have e1 : totalRows (pf :: rest) = pf.2.rows.length + totalRows rest := rfl
    rw [e1] at hq
    have h3 : pf.2.rows = [] := List.length_eq_zero.mp (by omega)
    rw [List.flatMap_cons, ih (by omega), List.append_nil, fileBatches_false, h3]
    rfl

/-- The cooperative stream, given enough fuel, emits exactly the batches of
the chunked, reindexed files, in order. -/
theorem streamRun_eq (u : List Col) (n : Nat) : ∀ (fuel : Nat) (q : List (String × FileData)),
    totalRows q ≤ fuel →
    streamRun u n fuel q = q.flatMap (fun pd => fileBatches u n false pd.1 pd.2) := by
  intro fuel
  induction fuel with
  | zero =>
    intro q hq
    exact (flatMap_fileBatches_zero u n q (Nat.le_zero.mp hq)).symm
  | succ fuel ih =>
    intro q
    induction q with
    | nil => intro _; rfl
    | cons pf rest ihq =>
      intro hq
      obtain ⟨p, fd⟩ := pf
      rcases hrows : fd.rows with _ | ⟨r, rs⟩
      · have hskip : streamNext u n ((p, fd) :: rest) = streamNext u n rest := by
          simp only [streamNext, hrows]
        have h1 : streamRun u n (fuel + 1) ((p, fd) :: rest) =
            streamRun u n (fuel + 1) rest := by
          rw [streamRun, streamRun, hskip]
        have e1 : totalRows ((p, fd) :: rest) = fd.rows.length + totalRows rest := rfl
        rw [e1, hrows] at hq
        simp only [List.length_nil, Nat.zero_add] at hq
        rw [h1, ihq hq, List.flatMap_cons]
        have hfb : fileBatches u n false p fd = [] := by
          rw [fileBatches_false, hrows]
          rfl
        rw [hfb, List.nil_append]
      · have hnext : streamNext u n ((p, fd) :: rest) =
            some ({ cols := u,
                    rows := (r :: rs.take (n - 1)).map (reindexRow u fd.header) },
                  (p, { header := fd.header, rows := rs.drop (n - 1) }) :: rest) := by
          simp only [streamNext, hrows]
        have h1 : streamRun u n (fuel + 1) ((p, fd) :: rest) =
            { cols := u, rows := (r :: rs.take (n - 1)).map (reindexRow u fd.header) } ::
            streamRun u n fuel
              ((p, { header := fd.header, rows := rs.drop (n - 1) }) :: rest) := by
          rw [streamRun, hnext]
        have e1 : totalRows ((p, fd) :: rest) = fd.rows.length + totalRows rest := rfl
        have e2 : totalRows ((p, { header := fd.header, rows := rs.drop (n - 1) }) :: rest) =
            (rs.drop (n - 1)).length + totalRows rest := rfl
        rw [e1, hrows] at hq
        simp only [List.length_cons] at hq
        have h2 : totalRows ((p, { header := fd.header, rows := rs.drop (n - 1) }) :: rest) ≤
            fuel := by
          rw [e2, List.length_drop]
          omega
        rw [h1, ih _ h2, List.flatMap_cons, List.flatMap_cons]
        have hfb : fileBatches u n false p fd =
            { cols := u, rows := (r :: rs.take (n - 1)).map (reindexRow u fd.header) } ::
            fileBatches u n false p { header := fd.header, rows := rs.drop (n - 1) } := by
          rw [fileBatches_false, fileBatches_false, hrows, chunksOf_cons, List.map_cons]
        rw [hfb, List.cons_append]

/-- Every chunk the worker emits has at most `max 1 n` rows. -/
theorem chunksOfGo_length_le {α : Type} (n : Nat) : ∀ (fuel : Nat) (l : List α)
    (ch : List α), ch ∈ chunksOfGo n fuel l → ch.length ≤ max 1 n := by
  intro fuel
  induction fuel with
  | zero => intro l ch h; simp [chunksOfGo] at h
  | succ fuel ih =>
    intro l ch h
    cases l with
    | nil => simp [chunksOfGo] at h
    | cons a rest =>
      rw [chunksOfGo] at h
      rcases List.mem_cons.mp h with h1 | h1
      · subst h1
        simp only [List.length_cons, List.length_take]
        omega
      · exact ih _ _ h1

/-- Every chunk of `chunksOf n` has at most `n` rows when `n` is positive. -/
theorem chunksOf_length_le {α : Type} (n : Nat) (l : List α) (ch : List α)
    (h0 : 0 < n) (h : ch ∈ chunksOf n l) : ch.length ≤ n := by
  have := chunksOfGo_length_le n l.length l ch h
  omega

/-- C5: with a positive chunk bound `n` and no transform, every `UnifiedBatch`
that `combine` emits holds at most `n` rows — a bound fixed before the run and
independent of the total size of any input file — and the whole run is
reproduced by the cooperative stream `streamRun`, whose state holds only each
file's unread remainder and which materializes exactly one chunk per step, so
no more than one chunk per file is ever held at a time. -/
theorem combine_batch_bounded (files : List SourceFile) (n : Nat)
    (bs : List UnifiedBatch) (b : UnifiedBatch)
    (h0 : 0 < n) (h1 : combine n none false files = Except.ok bs) (h2 : b ∈ bs) :
    b.rows.length ≤ n ∧
    streamRun (compute_union files) n (totalRows (readableFiles files))
      (readableFiles files) = bs := by
  have hne : files ≠ [] := by
    intro he
    subst he
    rw [combine] at h1
    simp at h1
  rw [combine_eq_ok n false files hne] at h1
  have hbs := Except.ok.inj h1
  subst hbs
  constructor
  · rcases List.mem_flatMap.mp h2 with ⟨pd, _, hb⟩
    rw [fileBatches] at hb
    rcases List.mem_map.mp hb with ⟨chunk, hchunk, hbeq⟩
    subst hbeq
    simp only [List.length_map]
    exact chunksOf_length_le n pd.2.rows chunk h0 hchunk
  · exact streamRun_eq (compute_union files) n (totalRows (readableFiles files))
      (readableFiles files) (Nat.le_refl _)

/-- Witness for C5: the first batch of the scenario run with chunk bound 2. -/
theorem combine_batch_bounded_witness :
    (demoBatches2.getD 0 ⟨[], []⟩).rows.length ≤ 2 ∧
    streamRun (compute_union demoFiles) 2 (totalRows (readableFiles demoFiles))
      (readableFiles demoFiles) = demoBatches2 :=
  combine_batch_bounded demoFiles 2 demoBatches2 (demoBatches2.getD 0 ⟨[], []⟩)
    (by decide) rfl (by decide)

/-- C7: on the empty sequence of file paths the Schema Reconciler fails with
`EmptyInputError`, from both its discovery and its combining entry points. -/
theorem empty_input_error (n : Nat) (transform : Option (UnifiedBatch → UnifiedBatch))
    (addFilename : Bool) :
    discover_columns [] = Except.error ReconcileError.EmptyInputError ∧
    combine n transform addFilename [] = Except.error ReconcileError.EmptyInputError :=
  ⟨rfl, rfl⟩

/-- C8: `combine` is a pure function of its input file list — running it twice
on identical input files with no transform yields identical sequences of
`UnifiedBatch`es. -/
theorem combine_deterministic (n : Nat) (addFilename : Bool)
    (files1 files2 : List SourceFile) (h : files1 = files2) :
    combine n none addFilename files1 = combine n none addFilename files2 := by
  rw [h]

/-- Witness for C8: two runs over the scenario files agree. -/
theorem combine_deterministic_witness :
    combine 10 none false demoFiles = combine 10 none false demoFiles :=
  combine_deterministic 10 false demoFiles demoFiles rfl

/-- C10: the bulk loaders are pure in their dataframe argument — loading the
same dataframe into two targets (postgres, then mysql) succeeds on both and
both tables receive exactly the dataframe's rows, identical to each other;
the dataframe value is untouched by the first load. -/
theorem pd_load_preserves_input (df : UnifiedBatch) (e1 e2 : Option Table) :
    pd_to_psql df e1 IfExists.replace =
      Except.ok { cols := df.cols, rows := df.rows } ∧
    pd_to_mysql df e2 IfExists.replace =
      Except.ok { cols := df.cols, rows := df.rows } := by
  constructor <;> simp [pd_to_psql, pd_to_mysql, load, batchCols]

/-! ### Per-file errors and the end-to-end run -/

/-- Readable and unreadable files partition the input sequence. -/
theorem readable_unreadable_partition : ∀ files : List SourceFile,
    (readableFiles files).length + (unreadable files).length = files.length := by
  intro files
  induction files with
  | nil => rfl
  | cons f fs ih =>
    rcases hf : f.content with _ | d
    · have h1 : readableFiles (f :: fs) = readableFiles fs := by
        simp [readableFiles, List.filterMap_cons, hf]
      have h2 : unreadable (f :: fs) = { path := f.path } :: unreadable fs := by
        simp [unreadable, List.filter_cons, hf]
      rw [h1, h2]
      simp only [List.length_cons]
      omega
    · have h1 : readableFiles (f :: fs) = (f.path, d) :: readableFiles fs := by
        simp [readableFiles, List.filterMap_cons, hf]
      have h2 : unreadable (f :: fs) = unreadable fs := by
        simp [unreadable, List.filter_cons, hf]
      rw [h1, h2]
      simp only [List.length_cons]
      omega

/-- Every reported `UnreadableFileError` names an input file whose contents
could not be read. -/
theorem unreadable_mem (files : List SourceFile) (e : UnreadableFileError)
    (h : e ∈ unreadable files) : ∃ f ∈ files, f.content = none ∧ e.path = f.path := by
  rw [unreadable] at h
  rcases List.mem_map.mp h with ⟨f, hf, he⟩
  rcases List.mem_filter.mp hf with ⟨hmem, hnone⟩
  exact ⟨f, hmem, Option.isNone_iff_eq_none.mp (by simpa using hnone), by rw [← he]⟩

/-- C6: per-file read failures never abort a nonempty run — `discover_columns`
succeeds, reporting one `UnreadableFileError` per unreadable file alongside the
column sequences of all readable files (the two groups partition the input),
and `combine` and a subsequent `replace` load complete over exactly the
readable files. -/
theorem unreadable_skipped (files : List SourceFile) (n : Nat) (existing : Option Table)
    (h : files ≠ []) :
    discover_columns files =
      Except.ok ((readableFiles files).map (fun pd => (pd.1, pd.2.header)),
                 unreadable files) ∧
    (readableFiles files).length + (unreadable files).length = files.length ∧
    (∀ e ∈ unreadable files, ∃ f ∈ files, f.content = none ∧ e.path = f.path) ∧
    ∃ bs t, combine n none false files = Except.ok bs ∧
      bs = (readableFiles files).flatMap
        (fun pd => fileBatches (compute_union files) n false pd.1 pd.2) ∧
      load IfExists.replace existing bs = Except.ok t := by
  refine ⟨?_, readable_unreadable_partition files,
    fun e he => unreadable_mem files e he, ?_⟩
  · rw [discover_columns, if_neg (by simpa using h)]
  · exact ⟨_, _, combine_eq_ok n false files h, rfl, rfl⟩

/-- Witness for C6: one unreadable file among three — the run completes,
reports one unreadable file, and loads the two readable ones. -/
theorem unreadable_skipped_witness :
    discover_columns demoFilesBad =
      Except.ok ((readableFiles demoFilesBad).map (fun pd => (pd.1, pd.2.header)),
                 unreadable demoFilesBad) ∧
    (readableFiles demoFilesBad).length + (unreadable demoFilesBad).length =
      demoFilesBad.length ∧
    (∀ e ∈ unreadable demoFilesBad,
      ∃ f ∈ demoFilesBad, f.content = none ∧ e.path = f.path) ∧
    ∃ bs t, combine 10 none false demoFilesBad = Except.ok bs ∧
      bs = (readableFiles demoFilesBad).flatMap
        (fun pd => fileBatches (compute_union demoFilesBad) 10 false pd.1 pd.2) ∧
      load IfExists.replace none bs = Except.ok t :=
  unreadable_skipped demoFilesBad 10 none (by decide)

/-! ### The notebook transform is not a pure mapping -/

/-- C9 counterexample: calling the notebook's `apply` on a dataframe holding
the February data returns the very reference it was given — not a new batch —
and the referenced object's contents afterwards differ from what they were
before the call: the batch it was given has been mutated in place. -/
theorem apply_mutates_input :
    (applyCall [demoDf] 0).2 = 0 ∧
    ¬ ((applyCall [demoDf] 0).1.getD 0 [] = demoDf) :=
  ⟨rfl, by decide⟩

/-- C9 (amended): the notebook's transform is an in-place mapping rather than a
pure one — the call returns the reference it was given, every other object on
the heap is left untouched (the frame property), and the given batch's new
contents are a deterministic function of its old contents. -/
theorem applyCall_frame (h : Heap) (r r2 : Nat) (hne : r2 ≠ r) (hr : r < h.length) :
    (applyCall h r).2 = r ∧
    (applyCall h r).1.getD r2 [] = h.getD r2 [] ∧
    (applyCall h r).1.getD r [] = applyContent (h.getD r []) := by
  refine ⟨rfl, ?_, ?_⟩
  · rw [applyCall]
    rw [List.getD_eq_getElem?_getD, List.getElem?_set_ne (fun he => hne he.symm),
      ← List.getD_eq_getElem?_getD]
  · rw [applyCall]
    rw [List.getD_eq_getElem?_getD, List.getElem?_set_self hr]
    rfl

/-- Witness for the amended C9: a heap with the February dataframe and one
other object — the call touches only the object it was passed. -/
theorem applyCall_frame_witness :
    (applyCall [demoDf, []] 0).2 = 0 ∧
    (applyCall [demoDf, []] 0).1.getD 1 [] = ([demoDf, []] : Heap).getD 1 [] ∧
    (applyCall [demoDf, []] 0).1.getD 0 [] = applyContent (([demoDf, []] : Heap).getD 0 []) :=
  applyCall_frame [demoDf, []] 0 1 (by decide) (by decide)

end D6t
